import Mathlib

/-!
Verification of the MetaDat Go library (schema-first text serialization).

The Go source is shallowly embedded: Go `string` values become Lean
`String`s manipulated through their character lists (mirroring the
byte-wise standard-library helpers the source calls), Go maps become
association lists with insert-overwrite semantics, Go `interface{}`
values become the inductive `Value`, and fallible functions return
`Except MErr`.  Go `float64`/`float32` values are carried as their
decimal source tokens (the only way floats enter or leave this core is
through decimal text), so float parsing is modelled as a syntactic
acceptor and float formatting returns the stored token.
-/

namespace MetaDat

/-! ### Go string helpers (strings / strconv standard library subset) -/

/-- Character class trimmed by Go `strings.TrimSpace` (ASCII subset of
`unicode.IsSpace`). -/
def goIsSpace (c : Char) : Bool :=
  c = ' ' || c = '\t' || c = '\n' || c = '\x0b' || c = '\x0c' || c = '\r'

def trimLeftChars : List Char → List Char
  | [] => []
  | c :: rest => if goIsSpace c then trimLeftChars rest else c :: rest

def trimChars (cs : List Char) : List Char :=
  (trimLeftChars (trimLeftChars cs).reverse).reverse

/-- Go `strings.TrimSpace`. -/
def goTrim (s : String) : String := String.mk (trimChars s.data)

/-- Split on a single-character separator, Go `strings.Split` semantics
(the empty string yields one empty piece). -/
def splitCh (sep : Char) : List Char → List (List Char)
  | [] => [[]]
  | c :: rest =>
    match splitCh sep rest with
    | [] => [[c]]
    | g :: gs => if c = sep then [] :: g :: gs else (c :: g) :: gs

def goSplit (s : String) (sep : Char) : List String :=
  (splitCh sep s.data).map String.mk

/-- Go `strings.HasPrefix`. -/
def goStartsWith (s pre : String) : Bool := pre.data.isPrefixOf s.data

/-- Go `strings.HasSuffix`. -/
def goEndsWith (s suf : String) : Bool := suf.data.reverse.isPrefixOf s.data.reverse

/-- Go `strings.Contains` for a one-character substring. -/
def goContainsChar (s : String) (c : Char) : Bool := s.data.contains c

/-- Go `strings.Join`. -/
def joinSep (sep : String) : List String → String
  | [] => ""
  | [x] => x
  | x :: y :: rest => x ++ sep ++ joinSep sep (y :: rest)

def findIdxCh (c : Char) : List Char → Option Nat
  | [] => none
  | d :: rest => if d = c then some 0 else (findIdxCh c rest).map (· + 1)

/-- Go `strings.Index` for a one-character substring. -/
def goIndexCh (s : String) (c : Char) : Option Nat := findIdxCh c s.data

/-- Split a string at the first occurrence of `c`: the Go idiom
`s[:strings.Index(s, c)]` / `s[strings.Index(s, c)+1:]`; `none` when
`c` is absent. -/
def splitFirstCh (s : String) (c : Char) : Option (String × String) :=
  match goIndexCh s c with
  | none => none
  | some i => some (String.mk (s.data.take i), String.mk (s.data.drop (i + 1)))

def digitsAux (acc : Nat) : List Char → Option Nat
  | [] => some acc
  | c :: rest =>
    if c.isDigit then digitsAux (acc * 10 + (c.toNat - 48)) rest else none

def digitsToNat : List Char → Option Nat
  | [] => none
  | cs => digitsAux 0 cs

/-- Go `strconv.ParseInt(s, 10, 64)` (also `strconv.Atoi` on 64-bit
platforms): optional sign, decimal digits, 64-bit range check. -/
def goParseInt64 (s : String) : Option Int :=
  match s.data with
  | '+' :: rest =>
    (digitsToNat rest).bind fun n =>
      if n ≤ 9223372036854775807 then some (n : Int) else none
  | '-' :: rest =>
    (digitsToNat rest).bind fun n =>
      if n ≤ 9223372036854775808 then some (-(n : Int)) else none
  | cs =>
    (digitsToNat cs).bind fun n =>
      if n ≤ 9223372036854775807 then some (n : Int) else none

/-- Go `strconv.ParseBool`: the exact accepted literal list. -/
def goParseBool (s : String) : Option Bool :=
  if s = "1" || s = "t" || s = "T" || s = "TRUE" || s = "true" || s = "True" then
    some true
  else if s = "0" || s = "f" || s = "F" || s = "FALSE" || s = "false" || s = "False" then
    some false
  else none

def isDigits (cs : List Char) : Bool := cs ≠ [] && cs.all Char.isDigit

/-- Decimal mantissa accepted by Go `strconv.ParseFloat`: digits with an
optional dot, at least one digit overall. -/
def isMantissa (cs : List Char) : Bool :=
  match splitCh '.' cs with
  | [a] => isDigits a
  | [a, b] => (isDigits a && (b = [] || isDigits b)) || (a = [] && isDigits b)
  | _ => false

def isExpPart (cs : List Char) : Bool :=
  match cs with
  | '+' :: rest => isDigits rest
  | '-' :: rest => isDigits rest
  | rest => isDigits rest

def splitAtExp (cs : List Char) : List Char × Option (List Char) :=
  match findIdxCh 'e' cs, findIdxCh 'E' cs with
  | none, none => (cs, none)
  | some i, none => (cs.take i, some (cs.drop (i + 1)))
  | none, some i => (cs.take i, some (cs.drop (i + 1)))
  | some i, some j =>
    let k := min i j
    (cs.take k, some (cs.drop (k + 1)))

def lowerEq (cs : List Char) (lit : List Char) : Bool :=
  cs.map Char.toLower == lit

/-- Syntactic acceptor for Go `strconv.ParseFloat` (decimal and
inf/nan forms; the hexadecimal and underscore forms, unreachable from
this repository's data, are not modelled). -/
def isGoFloat (s : String) : Bool :=
  let core (cs : List Char) : Bool :=
    lowerEq cs ['i', 'n', 'f'] ||
    lowerEq cs ['i', 'n', 'f', 'i', 'n', 'i', 't', 'y'] ||
    lowerEq cs ['n', 'a', 'n'] ||
    (match splitAtExp cs with
     | (m, none) => isMantissa m
     | (m, some e) => isMantissa m && isExpPart e)
  match s.data with
  | '+' :: rest => core rest
  | '-' :: rest => core rest
  | cs => core cs

/-- Byte-wise (here: code-point-wise) Go string comparison `a > b`,
used by the source's fallback alphabetical sorts. -/
def charListLt : List Char → List Char → Bool
  | [], [] => false
  | [], _ :: _ => true
  | _ :: _, [] => false
  | a :: as, b :: bs =>
    if a.toNat < b.toNat then true
    else if b.toNat < a.toNat then false
    else charListLt as bs

def strLt (a b : String) : Bool := charListLt a.data b.data

def insertSorted (x : String) : List String → List String
  | [] => [x]
  | y :: rest => if strLt x y then x :: y :: rest else y :: insertSorted x rest

/-- The source's bubble/selection sorts on field names produce the
ascending order; modelled by insertion sort (same result). -/
def sortStrings : List String → List String
  | [] => []
  | x :: rest => insertSorted x (sortStrings rest)

/-! ### Data model (`FieldType`, `Schema`, dynamic `Value`) -/

/-- `FieldType` from the source: `Type` is kept as a plain string (the
Go struct stores it that way and unknown strings flow into default
branches), `ObjectFields` is the Go map modelled as an association
list with insert-overwrite semantics, `ObjectOrder` preserves declared
field order. -/
inductive FieldType where
  | mk (type : String) (elementType : Option FieldType)
       (objectFields : List (String × FieldType))
       (objectOrder : List String)
       (name : String)

def FieldType.type : FieldType → String
  | .mk t _ _ _ _ => t

def FieldType.elementType : FieldType → Option FieldType
  | .mk _ et _ _ _ => et

def FieldType.objectFields : FieldType → List (String × FieldType)
  | .mk _ _ ofs _ _ => ofs

def FieldType.objectOrder : FieldType → List String
  | .mk _ _ _ oord _ => oord

def FieldType.withName : FieldType → String → FieldType
  | .mk t et ofs oord _, n => .mk t et ofs oord n

/-- The Go zero value `FieldType{}`, produced by a failed map lookup. -/
def FieldType.zero : FieldType := .mk "" none [] [] ""

/-- Shorthand for a scalar `FieldType{Type: t}`. -/
def ftScalar (t : String) : FieldType := .mk t none [] [] ""

structure Schema where
  fields : List (String × FieldType)
  fieldOrder : List String

/-- Go `interface{}` values crossing the core: JSON trees, parse
results and writer inputs.  Floats are carried as their decimal
tokens. -/
inductive Value where
  | vNull
  | vStr (s : String)
  | vInt (n : Int)
  | vFloat32 (tok : String)
  | vFloat64 (tok : String)
  | vBool (b : Bool)
  | vArr (elems : List Value)
  | vObj (fields : List (String × Value))

/-- Go map indexing `m[k]`. -/
def mapLookup {α : Type} : List (String × α) → String → Option α
  | [], _ => none
  | (k, v) :: rest, key => if k = key then some v else mapLookup rest key

/-- Go map assignment `m[k] = v` (overwrites an existing binding). -/
def mapInsert {α : Type} : List (String × α) → String → α → List (String × α)
  | [], key, v => [(key, v)]
  | (k, w) :: rest, key, v =>
    if k = key then (k, v) :: rest else (k, w) :: mapInsert rest key v

/-- `isSimpleType` from the source. -/
def isSimpleType (t : String) : Bool :=
  t = "string" || t = "int" || t = "int32" || t = "int64" ||
  t = "float32" || t = "float64" || t = "bool"

/-! ### Go `fmt` `%v` rendering of dynamic values -/

def insertPairSorted (x : String × String) :
    List (String × String) → List (String × String)
  | [] => [x]
  | y :: rest => if strLt x.1 y.1 then x :: y :: rest else y :: insertPairSorted x rest

/-- Sort rendered map entries by key, as Go `fmt` sorts map keys
before printing. -/
def sortPairsByKey : List (String × String) → List (String × String)
  | [] => []
  | x :: rest => insertPairSorted x (sortPairsByKey rest)

mutual

/-- Go `fmt.Sprintf("%v", x)` on the dynamic values of this model
(maps print with their keys sorted, as Go `fmt` does). -/
def govRender : Value → String
  | .vNull => "<nil>"
  | .vStr s => s
  | .vInt n => toString n
  | .vFloat32 tok => tok
  | .vFloat64 tok => tok
  | .vBool b => if b then "true" else "false"
  | .vArr elems => "[" ++ joinSep " " (govRenderList elems) ++ "]"
  | .vObj fields =>
    "map[" ++ joinSep " " ((sortPairsByKey (govRenderMap fields)).map
      fun p => p.1 ++ ":" ++ p.2) ++ "]"

def govRenderList : List Value → List String
  | [] => []
  | v :: rest => govRender v :: govRenderList rest

def govRenderMap : List (String × Value) → List (String × String)
  | [] => []
  | (k, v) :: rest => (k, govRender v) :: govRenderMap rest

end

/-! ### Errors

Go errors are `fmt.Errorf` strings; each distinct format string of the
source becomes one constructor, wrapping errors (`%v` of an inner
error) become recursive constructors. -/

inductive MErr where
  | outOfFuel
  | unknownType (t : String)
  | invalidObjectFieldFormat (pair : String)
  | errorParsingType (field : String) (e : MErr)
  | noSchema
  | invalidDataFormat (lineNo : Nat) (line : String)
  | unknownField (name : String)
  | errorParsingField (name : String) (e : MErr)
  | arraySizeMismatch (declared : Int) (found : Nat)
  | invalidInteger (s : String)
  | invalidFloat32 (s : String)
  | invalidFloat64 (s : String)
  | invalidBool (s : String)
  | invalidIntegerForField (field s : String)
  | invalidFloat32ForField (field s : String)
  | invalidFloat64ForField (field s : String)
  | invalidBoolForField (field s : String)
  | expectedType (expected got : String)
  | arrayElem (idx : Nat) (e : MErr)
  | objectFieldErr (name : String) (e : MErr)
  | validationError (field : String) (e : MErr)
  | expectedArray (name : String)
  | expectedObject (name : String)
  | expectedObjectInArray
  | unknownFieldType (t : String)
  | errorWritingField (name : String) (e : MErr)
deriving DecidableEq

/-! ### Schema grammar parser (`splitObjectFields`, `parseType`,
`parseSchema`) -/

/-- `splitObjectFields` scanning loop: brace-depth counter, current
field buffer, completed fields. -/
def splitObjectFieldsAux : List Char → Int → List Char → List String → List String
  | [], _, current, acc =>
    if current.length > 0 then acc ++ [String.mk current] else acc
  | ch :: rest, depth, current, acc =>
    if ch = '\x7b' then splitObjectFieldsAux rest (depth + 1) (current ++ [ch]) acc
    else if ch = '\x7d' then splitObjectFieldsAux rest (depth - 1) (current ++ [ch]) acc
    else if ch = '|' then
      if depth = 0 then splitObjectFieldsAux rest depth [] (acc ++ [String.mk current])
      else splitObjectFieldsAux rest depth (current ++ [ch]) acc
    else splitObjectFieldsAux rest depth (current ++ [ch]) acc

def splitObjectFields (objectStr : String) : List String :=
  splitObjectFieldsAux objectStr.data 0 [] []

mutual

/-- `parseType`, fuelled: the source recurses on strictly shorter
strings, so fuel `length + 1` never runs out on the source's
recursion. -/
def parseTypeF : Nat → String → Except MErr FieldType
  | 0, _ => .error .outOfFuel
  | fuel + 1, typeStr0 =>
    let typeStr := goTrim typeStr0
    if goEndsWith typeStr "[]" then
      (parseTypeF fuel (String.mk (typeStr.data.take (typeStr.data.length - 2)))).map
        fun elementType => .mk "array" (some elementType) [] [] ""
    else if goStartsWith typeStr "\x7b" && goEndsWith typeStr "\x7d" then
      (parseObjPairsF fuel (splitObjectFields
          (String.mk ((typeStr.data.drop 1).take (typeStr.data.length - 2)))) [] []).map
        fun p => .mk "object" none p.1 p.2 ""
    else
      match typeStr with
      | "string" | "int" | "int32" | "int64" | "float32" | "float64" | "bool" =>
        .ok (.mk typeStr none [] [] "")
      | _ => .error (.unknownType typeStr)

/-- The object-field loop of `parseType`: each pair is split at its
first colon, its type parsed recursively, the name attached, the field
map updated (overwriting) and the order extended. -/
def parseObjPairsF : Nat → List String → List (String × FieldType) → List String →
    Except MErr (List (String × FieldType) × List String)
  | 0, _, _, _ => .error .outOfFuel
  | _ + 1, [], fields, order => .ok (fields, order)
  | fuel + 1, pair :: rest, fields, order =>
    match splitFirstCh pair ':' with
    | none => .error (.invalidObjectFieldFormat pair)
    | some (l, r) =>
      let fieldName := goTrim l
      (parseTypeF fuel (goTrim r)).bind fun ft0 =>
        parseObjPairsF fuel rest (mapInsert fields fieldName (ft0.withName fieldName))
          (order ++ [fieldName])

end

def parseType (typeStr : String) : Except MErr FieldType :=
  parseTypeF (typeStr.data.length + 1) typeStr

/-- The line loop of `parseSchema`: blank and `#`-comment lines are
skipped, lines without a colon are skipped, each declaration updates
the field map (overwriting duplicates) and appends to the field
order. -/
def parseSchemaLines : List String → Schema → Except MErr Schema
  | [], schema => .ok schema
  | line0 :: rest, schema =>
    let line := goTrim line0
    if line = "" || goStartsWith line "#" then parseSchemaLines rest schema
    else
      match splitFirstCh line ':' with
      | none => parseSchemaLines rest schema
      | some (l, r) =>
        match parseType (goTrim r) with
        | .error e => .error (.errorParsingType (goTrim l) e)
        | .ok fieldType =>
          parseSchemaLines rest
            { fields := mapInsert schema.fields (goTrim l) fieldType,
              fieldOrder := schema.fieldOrder ++ [goTrim l] }

def parseSchema (metaContent : String) : Except MErr Schema :=
  parseSchemaLines (goSplit (goTrim metaContent) '\n') { fields := [], fieldOrder := [] }

/-! ### Schema rendering (`GetFieldOrder`, `fieldTypeToString`,
`Schema.ToString`) -/

def Schema.GetFieldOrder (s : Schema) : List String :=
  if s.fieldOrder.length > 0 then s.fieldOrder
  else sortStrings (s.fields.map Prod.fst)

/-- `getObjectFieldOrder` from the source. -/
def getObjectFieldOrder (ft : FieldType) : List String :=
  if ft.objectOrder.length > 0 then ft.objectOrder
  else sortStrings (ft.objectFields.map Prod.fst)

mutual

/-- Structural weight of a `FieldType`, used as recursion fuel: it
strictly exceeds the weight of every nested field type. -/
def FieldType.fuel : FieldType → Nat
  | .mk _ none ofs _ _ => fuelFields ofs + 1
  | .mk _ (some e) ofs _ _ => FieldType.fuel e + fuelFields ofs + 1

def fuelFields : List (String × FieldType) → Nat
  | [] => 0
  | (_, f) :: rest => FieldType.fuel f + fuelFields rest

end

/-- `fieldTypeToString`, fuelled on nesting depth (a missing map entry
renders the zero `FieldType`, whose empty `Type` string prints as
`""`; inlined below). -/
def fieldTypeToStringF : Nat → FieldType → String
  | 0, _ => ""
  | fuel + 1, ft =>
    match ft.type with
    | "array" =>
      (match ft.elementType with
       | some e => fieldTypeToStringF fuel e ++ "[]"
       | none => "[]")
    | "object" =>
      let fieldNames :=
        if ft.objectOrder.length = 0 then sortStrings (ft.objectFields.map Prod.fst)
        else ft.objectOrder
      "\x7b" ++ joinSep "|" (fieldNames.map fun n =>
        n ++ ":" ++ (match mapLookup ft.objectFields n with
                     | some f => fieldTypeToStringF fuel f
                     | none => "")) ++ "\x7d"
    | t => t

def fieldTypeToString (ft : FieldType) : String :=
  fieldTypeToStringF ft.fuel ft

def Schema.ToString (s : Schema) : String :=
  String.join ((Schema.GetFieldOrder s).map fun n =>
    "    " ++ n ++ ": " ++
      fieldTypeToString ((mapLookup s.fields n).getD FieldType.zero) ++ "\n")

/-! ### Type inference (`inferFieldType`, `InferSchemaFromJSON`) -/

/-- Whether a float64 decimal token denotes an integral value: the
source tests `v == float64(int(v))` on the parsed number; on the
decimal tokens of this model that is digits with an optionally
all-zero fraction and no exponent. -/
def tokIsIntegral (s : String) : Bool :=
  let body (cs : List Char) : Bool :=
    match splitCh '.' cs with
    | [a] => isDigits a
    | [a, b] => isDigits a && b.all (· = '0')
    | _ => false
  match s.data with
  | '+' :: rest => body rest
  | '-' :: rest => body rest
  | cs => body cs

mutual

/-- `inferFieldType` from the source (the `reflect.Slice` default
branch is unreachable for the dynamic values of this model, whose only
slices are `vArr`). -/
def inferFieldType : Value → FieldType
  | .vNull => .mk "string" none [] [] ""
  | .vStr _ => .mk "string" none [] [] ""
  | .vFloat64 tok =>
    if tokIsIntegral tok then .mk "int" none [] [] "" else .mk "float64" none [] [] ""
  | .vInt _ => .mk "int" none [] [] ""
  | .vFloat32 _ => .mk "float32" none [] [] ""
  | .vBool _ => .mk "bool" none [] [] ""
  | .vArr [] => .mk "array" none [] [] ""
  | .vArr (x :: _) => .mk "array" (some (inferFieldType x)) [] [] ""
  | .vObj fs => .mk "object" none (inferFields fs) (fs.map Prod.fst) ""

def inferFields : List (String × Value) → List (String × FieldType)
  | [] => []
  | (k, v) :: rest => (k, inferFieldType v) :: inferFields rest

end

/-- `InferSchemaFromJSON`: only a top-level object yields fields. -/
def InferSchemaFromJSON : Value → Schema
  | .vObj fs =>
    { fields := inferFields fs, fieldOrder := fs.map Prod.fst }
  | _ => { fields := [], fieldOrder := [] }

/-! ### Value parser -/

/-- Go `lines[i]` under a bounds check already performed by the
caller (out of range yields `""`, a case the source never reaches). -/
def getLine (lines : List String) (i : Nat) : String :=
  match lines.drop i with
  | [] => ""
  | l :: _ => l

/-- `getFieldOrder` from the source: scans the map for any object
field carrying an `ObjectOrder` and returns that order, otherwise the
sorted key list. -/
def getFieldOrder (fields : List (String × FieldType)) : List String :=
  match fields.find? (fun p => p.2.type == "object" && !p.2.objectOrder.isEmpty) with
  | some p => p.2.objectOrder
  | none => sortStrings (fields.map Prod.fst)

/-- The positional loop of `parseObjectFromLine`: field `i` of the
declared order is decoded from split component `i`; the loop breaks
when components run out, extra components are never visited.  A name
missing from `ObjectFields` yields Go's zero `FieldType`, whose empty
kind falls to the verbatim-string default. -/
def pofLoop : List String → List String → List (String × FieldType) →
    List (String × Value) → Except MErr (List (String × Value))
  | [], _, _, result => .ok result
  | _ :: _, [], _, result => .ok result
  | fieldName :: order, valueRaw :: values, ofs, result =>
    let fieldDef := (mapLookup ofs fieldName).getD FieldType.zero
    let valueStr := goTrim valueRaw
    match fieldDef.type with
    | "int" | "int32" | "int64" =>
      (match goParseInt64 valueStr with
       | none => .error (.invalidIntegerForField fieldName valueStr)
       | some n => pofLoop order values ofs (mapInsert result fieldName (.vInt n)))
    | "float32" =>
      if isGoFloat valueStr then
        pofLoop order values ofs (mapInsert result fieldName (.vFloat32 valueStr))
      else .error (.invalidFloat32ForField fieldName valueStr)
    | "float64" =>
      if isGoFloat valueStr then
        pofLoop order values ofs (mapInsert result fieldName (.vFloat64 valueStr))
      else .error (.invalidFloat64ForField fieldName valueStr)
    | "bool" =>
      (match goParseBool valueStr with
       | none => .error (.invalidBoolForField fieldName valueStr)
       | some b => pofLoop order values ofs (mapInsert result fieldName (.vBool b)))
    | _ => pofLoop order values ofs (mapInsert result fieldName (.vStr valueStr))

/-- `parseObjectFromLine` from the source (its constant `0` index
return is dropped; every caller ignores it). -/
def parseObjectFromLine (line : String) (fieldType : FieldType) :
    Except MErr (List (String × Value)) :=
  pofLoop (getObjectFieldOrder fieldType) (goSplit line '|') fieldType.objectFields []

/-- The multi-line element loop of the legacy `parseArray` (50000
element compatibility cap). -/
def parseArrayLoop (fieldType : FieldType) : List String → Nat → List Value →
    Except MErr (List Value × Nat)
  | [], i, result => .ok (result, i)
  | line :: rest, i, result =>
    if ¬ (goStartsWith line "    " = true ∨ goStartsWith line "\t" = true) then
      .ok (result, i)
    else
      let trimmedLine := goTrim line
      if trimmedLine = "" then parseArrayLoop fieldType rest (i + 1) result
      else if 50000 ≤ result.length then .ok (result, i)
      else
        match fieldType.elementType with
        | some et =>
          if et.type = "object" then
            match parseObjectFromLine trimmedLine et with
            | .error e => .error e
            | .ok obj => parseArrayLoop fieldType rest (i + 1) (result ++ [.vObj obj])
          else parseArrayLoop fieldType rest (i + 1) (result ++ [.vStr trimmedLine])
        | none => parseArrayLoop fieldType rest (i + 1) (result ++ [.vStr trimmedLine])

/-- Legacy `parseArray` (the undeclared-size array path of
`parseValue`). -/
def parseArray (fieldType : FieldType) (valueStr : String) (lines : List String)
    (currentIndex : Nat) : Except MErr (List Value × Nat) :=
  if valueStr ≠ "" ∧ goContainsChar valueStr '|' = true then
    .ok ((goSplit valueStr '|').map (fun v => .vStr (goTrim v)), currentIndex + 1)
  else
    parseArrayLoop fieldType (lines.drop (currentIndex + 1)) (currentIndex + 1) []

mutual

/-- `parseValue` from the source, fuelled (the source's recursion
`parseValue → parseObject → parseValue` descends into strictly nested
field types, so generous fuel never runs out on it). -/
def parseValueF : Nat → FieldType → String → List String → Nat →
    Except MErr (Value × Nat)
  | 0, _, _, _, _ => .error .outOfFuel
  | fuel + 1, fieldType, valueStr, lines, currentIndex =>
    match fieldType.type with
    | "string" =>
      if valueStr = "" ∧ currentIndex + 1 < lines.length then
        let nextLine := getLine lines (currentIndex + 1)
        if goStartsWith nextLine "    " = true ∨ goStartsWith nextLine "\t" = true then
          .ok (.vStr (goTrim nextLine), currentIndex + 2)
        else .ok (.vStr valueStr, currentIndex + 1)
      else .ok (.vStr valueStr, currentIndex + 1)
    | "int" | "int32" | "int64" =>
      let p :=
        if valueStr = "" ∧ currentIndex + 1 < lines.length then
          let nextLine := goTrim (getLine lines (currentIndex + 1))
          if nextLine ≠ "" ∧ goContainsChar nextLine ':' = false then
            (nextLine, currentIndex + 1)
          else (valueStr, currentIndex)
        else (valueStr, currentIndex)
      (match goParseInt64 (goTrim p.1) with
       | none => .error (.invalidInteger p.1)
       | some n => .ok (.vInt n, p.2 + 1))
    | "float32" =>
      let p :=
        if valueStr = "" ∧ currentIndex + 1 < lines.length then
          let nextLine := goTrim (getLine lines (currentIndex + 1))
          if nextLine ≠ "" ∧ goContainsChar nextLine ':' = false then
            (nextLine, currentIndex + 1)
          else (valueStr, currentIndex)
        else (valueStr, currentIndex)
      if isGoFloat (goTrim p.1) then .ok (.vFloat32 (goTrim p.1), p.2 + 1)
      else .error (.invalidFloat32 p.1)
    | "float64" =>
      let p :=
        if valueStr = "" ∧ currentIndex + 1 < lines.length then
          let nextLine := goTrim (getLine lines (currentIndex + 1))
          if nextLine ≠ "" ∧ goContainsChar nextLine ':' = false then
            (nextLine, currentIndex + 1)
          else (valueStr, currentIndex)
        else (valueStr, currentIndex)
      if isGoFloat (goTrim p.1) then .ok (.vFloat64 (goTrim p.1), p.2 + 1)
      else .error (.invalidFloat64 p.1)
    | "bool" =>
      let p :=
        if valueStr = "" ∧ currentIndex + 1 < lines.length then
          let nextLine := goTrim (getLine lines (currentIndex + 1))
          if nextLine ≠ "" ∧ goContainsChar nextLine ':' = false then
            (nextLine, currentIndex + 1)
          else (valueStr, currentIndex)
        else (valueStr, currentIndex)
      (match goParseBool (goTrim p.1) with
       | none => .error (.invalidBool p.1)
       | some b => .ok (.vBool b, p.2 + 1))
    | "array" =>
      (parseArray fieldType valueStr lines currentIndex).map fun q => (.vArr q.1, q.2)
    | "object" =>
      (parseObjectF fuel fieldType valueStr lines currentIndex).map fun q => (.vObj q.1, q.2)
    | t => .error (.unknownType t)

/-- `parseObject` from the source. -/
def parseObjectF : Nat → FieldType → String → List String → Nat →
    Except MErr (List (String × Value) × Nat)
  | 0, _, _, _, _ => .error .outOfFuel
  | fuel + 1, fieldType, valueStr, lines, currentIndex =>
    if valueStr ≠ "" ∧ goContainsChar valueStr '|' = true then
      (parseObjectFromLine valueStr fieldType).map fun obj => (obj, currentIndex + 1)
    else
      if currentIndex + 1 < lines.length ∧
          goTrim (getLine lines (currentIndex + 1)) ≠ "" ∧
          goContainsChar (goTrim (getLine lines (currentIndex + 1))) '|' = true then
        (parseObjectFromLine (goTrim (getLine lines (currentIndex + 1))) fieldType).map
          fun obj => (obj, currentIndex + 2)
      else
        parseObjFieldsF fuel (getFieldOrder fieldType.objectFields) fieldType lines
          (currentIndex + 1) []

/-- The field-by-field loop of `parseObject`: one declared field name
per iteration; a blank line consumes both the line and the field slot
(the Go `continue` advances the range variable). -/
def parseObjFieldsF : Nat → List String → FieldType → List String → Nat →
    List (String × Value) → Except MErr (List (String × Value) × Nat)
  | 0, _, _, _, _, _ => .error .outOfFuel
  | _ + 1, [], _, _, i, result => .ok (result, i)
  | fuel + 1, fieldName :: order, fieldType, lines, i, result =>
    if lines.length ≤ i then .ok (result, i)
    else
      let line := goTrim (getLine lines i)
      if line = "" then parseObjFieldsF fuel order fieldType lines (i + 1) result
      else if goStartsWith line (fieldName ++ ":") then
        let valueStr := goTrim (String.mk (line.data.drop (fieldName ++ ":").data.length))
        let fieldDef := (mapLookup fieldType.objectFields fieldName).getD FieldType.zero
        match parseValueF fuel fieldDef valueStr lines i with
        | .error e => .error e
        | .ok (value, newIndex) =>
          parseObjFieldsF fuel order fieldType lines newIndex
            (mapInsert result fieldName value)
      else parseObjFieldsF fuel order fieldType lines i result

end

def parseValue (fieldType : FieldType) (valueStr : String) (lines : List String)
    (currentIndex : Nat) : Except MErr (Value × Nat) :=
  parseValueF (fieldType.fuel + lines.length + 1) fieldType valueStr lines currentIndex

/-- The multi-line element loop of `parseArrayWithDeclaredSize`
(stops at an unindented line or once the declared count is
reached). -/
def pawdsLoop (elementType : Option FieldType) (declaredSize : Int) :
    List String → Nat → List Value → Except MErr (List Value × Nat)
  | [], i, result => .ok (result, i)
  | line :: rest, i, result =>
    if ¬ (declaredSize ≤ 0 ∨ (result.length : Int) < declaredSize) then .ok (result, i)
    else if ¬ (goStartsWith line "    " = true ∨ goStartsWith line "\t" = true) then
      .ok (result, i)
    else
      let trimmedLine := goTrim line
      if trimmedLine = "" then pawdsLoop elementType declaredSize rest (i + 1) result
      else
        match elementType with
        | some et =>
          if et.type = "object" then
            match parseObjectFromLine trimmedLine et with
            | .error e => .error e
            | .ok obj => pawdsLoop elementType declaredSize rest (i + 1) (result ++ [.vObj obj])
          else pawdsLoop elementType declaredSize rest (i + 1) (result ++ [.vStr trimmedLine])
        | none => pawdsLoop elementType declaredSize rest (i + 1) (result ++ [.vStr trimmedLine])

/-- `Parser.parseArrayWithDeclaredSize` from the source. -/
def parseArrayWithDeclaredSize (fieldType : FieldType) (valueStr : String)
    (lines : List String) (currentIndex : Nat) (declaredSize : Int) :
    Except MErr (List Value × Nat) :=
  if valueStr ≠ "" ∧ goContainsChar valueStr '|' = true then
    let values := goSplit valueStr '|'
    if declaredSize > 0 ∧ (values.length : Int) ≠ declaredSize then
      .error (.arraySizeMismatch declaredSize values.length)
    else .ok (values.map (fun v => .vStr (goTrim v)), currentIndex + 1)
  else
    match pawdsLoop fieldType.elementType declaredSize (lines.drop (currentIndex + 1))
        (currentIndex + 1) [] with
    | .error e => .error e
    | .ok (result, i) =>
      if declaredSize > 0 ∧ (result.length : Int) ≠ declaredSize then
        .error (.arraySizeMismatch declaredSize result.length)
      else .ok (result, i)

/-- `Parser.parseValueWithArraySize`. -/
def parseValueWithArraySize (fieldType : FieldType) (valueStr : String)
    (lines : List String) (currentIndex : Nat) (arraySize : Int) :
    Except MErr (Value × Nat) :=
  if fieldType.type = "array" then
    (parseArrayWithDeclaredSize fieldType valueStr lines currentIndex arraySize).map
      fun q => (.vArr q.1, q.2)
  else parseValue fieldType valueStr lines currentIndex

/-- The `name[SIZE]` extraction of `Parser.ParseData`: on a bracket
pair the name is truncated at `[` and the size is the parsed bracket
content (staying `0` when `Atoi` fails). -/
def extractNameSize (fieldNameWithSize : String) : String × Int :=
  if goContainsChar fieldNameWithSize '[' = true then
    match goIndexCh fieldNameWithSize '[', goIndexCh fieldNameWithSize ']' with
    | some bracketIndex, some closeBracketIndex =>
      if bracketIndex < closeBracketIndex then
        (String.mk (fieldNameWithSize.data.take bracketIndex),
         (goParseInt64 (String.mk ((fieldNameWithSize.data.drop (bracketIndex + 1)).take
            (closeBracketIndex - bracketIndex - 1)))).getD 0)
      else (fieldNameWithSize, 0)
    | _, _ => (fieldNameWithSize, 0)
  else (fieldNameWithSize, 0)

/-- The main line loop of `Parser.ParseData`, fuelled (the cursor
strictly increases each iteration, so fuel `lines.length + 2` is
ample). -/
def parseDataLoopF : Nat → Schema → List String → Nat → List (String × Value) →
    Except MErr (List (String × Value))
  | 0, _, _, _, _ => .error .outOfFuel
  | fuel + 1, schema, lines, i, result =>
    if lines.length ≤ i then .ok result
    else
      let line := goTrim (getLine lines i)
      if line = "" then parseDataLoopF fuel schema lines (i + 1) result
      else
        match splitFirstCh line ':' with
        | none => .error (.invalidDataFormat (i + 1) line)
        | some (l, r) =>
          let ns := extractNameSize (goTrim l)
          match mapLookup schema.fields ns.1 with
          | none => .error (.unknownField ns.1)
          | some fieldType =>
            match parseValueWithArraySize fieldType (goTrim r) lines i ns.2 with
            | .error e => .error (.errorParsingField ns.1 e)
            | .ok (value, newIndex) =>
              parseDataLoopF fuel schema lines newIndex (mapInsert result ns.1 value)

/-- `Parser.ParseData` from the source. -/
def ParseData (schema : Schema) (dataContent : String) :
    Except MErr (List (String × Value)) :=
  if schema.fields.length = 0 then .error .noSchema
  else
    let lines := goSplit (goTrim dataContent) '\n'
    parseDataLoopF (lines.length + 2) schema lines 0 []

/-! ### Value writer -/

/-- Go `strings.Repeat`. -/
def goRepeat (s : String) (n : Nat) : String := String.join (List.replicate n s)

/-- Go `strings.TrimRight(s, "\n")`. -/
def trimRightNl (s : String) : String :=
  String.mk ((s.data.reverse.dropWhile (· = '\n')).reverse)

/-- `Writer.writeArrayItem` from the source. -/
def writeArrayItem (item : Value) (itemType : Option FieldType) (indent : Nat) :
    Except MErr String :=
  let indentStr := goRepeat "    " indent
  match itemType with
  | none => .ok (indentStr ++ govRender item)
  | some it =>
    match it.type with
    | "object" =>
      (match item with
       | .vObj obj =>
         .ok (indentStr ++ joinSep "|"
           ((getObjectFieldOrder it).filterMap fun fieldName =>
             (mapLookup obj fieldName).map govRender))
       | _ => .error .expectedObjectInArray)
    | _ => .ok (indentStr ++ govRender item)

/-- The multi-line item loop inside `Writer.writeField`'s array case:
each item is rendered and followed by a newline. -/
def writeItems : List Value → Option FieldType → Nat → Except MErr String
  | [], _, _ => .ok ""
  | item :: rest, itemType, indent =>
    (writeArrayItem item itemType indent).bind fun itemStr =>
      (writeItems rest itemType indent).map fun restStr => itemStr ++ "\n" ++ restStr

/-- `Writer.writeField` from the source.  A non-array dynamic value
under an array field type fails (`convertToInterfaceSlice` only
converts slices, and the slices of this model are `vArr`).  The final
`strings.TrimRight(·, "\n")` of the array case applies to both
non-empty branches; the empty-array early return skips it. -/
def writeField (name : String) (value : Value) (fieldType : FieldType) (indent : Nat) :
    Except MErr String :=
  let indentStr := goRepeat "    " indent
  match fieldType.type with
  | "string" | "int" | "int32" | "int64" | "float32" | "float64" | "bool" =>
    .ok (indentStr ++ name ++ ":\n" ++ indentStr ++ "    " ++ govRender value)
  | "array" =>
    (match value with
     | .vArr arr =>
       let header := indentStr ++ name ++ "[" ++ toString arr.length ++ "]:"
       if arr.length = 0 then .ok header
       else
         (match fieldType.elementType with
          | some et =>
            if isSimpleType et.type then
              .ok (trimRightNl (header ++ " " ++ joinSep "|" (arr.map govRender)))
            else
              (writeItems arr fieldType.elementType (indent + 1)).map fun body =>
                trimRightNl (header ++ "\n" ++ body)
          | none =>
            (writeItems arr none (indent + 1)).map fun body =>
              trimRightNl (header ++ "\n" ++ body))
     | _ => .error (.expectedArray name))
  | "object" =>
    (match value with
     | .vObj obj =>
       .ok (indentStr ++ name ++ ":\n" ++ indentStr ++ "    " ++ joinSep "|"
         ((getObjectFieldOrder fieldType).filterMap fun n =>
           (mapLookup obj n).map govRender))
     | _ => .error (.expectedObject name))
  | t => .error (.unknownFieldType t)

/-- The field loop of `Writer.writeData`: schema order drives the
output; fields missing from the schema map or from the data are
skipped; a newline is appended when the field text lacks one. -/
def writeDataFields (schema : Schema) (data : List (String × Value)) :
    List String → Except MErr String
  | [] => .ok ""
  | fieldName :: rest =>
    match mapLookup schema.fields fieldName with
    | none => writeDataFields schema data rest
    | some fieldType =>
      match mapLookup data fieldName with
      | none => writeDataFields schema data rest
      | some value =>
        match writeField fieldName value fieldType 0 with
        | .error e => .error (.errorWritingField fieldName e)
        | .ok fieldStr =>
          (writeDataFields schema data rest).map fun restStr =>
            fieldStr ++ (if goEndsWith fieldStr "\n" = true then "" else "\n") ++ restStr

/-- `Writer.writeData` from the source. -/
def writeData (schema : Schema) (data : List (String × Value)) : Except MErr String :=
  writeDataFields schema data (Schema.GetFieldOrder schema)

/-! ### Validator -/

/-- Go `%T` of the dynamic values of this model. -/
def goTypeName : Value → String
  | .vNull => "<nil>"
  | .vStr _ => "string"
  | .vInt _ => "int"
  | .vFloat32 _ => "float32"
  | .vFloat64 _ => "float64"
  | .vBool _ => "bool"
  | .vArr _ => "[]interface \x7b\x7d"
  | .vObj _ => "map[string]interface \x7b\x7d"

mutual

/-- Structural weight of a `Value`, used as validator fuel. -/
def Value.fuel : Value → Nat
  | .vArr elems => fuelElems elems + 1
  | .vObj fs => fuelVFields fs + 1
  | _ => 1

def fuelElems : List Value → Nat
  | [] => 1
  | v :: rest => Value.fuel v + fuelElems rest + 1

def fuelVFields : List (String × Value) → Nat
  | [] => 1
  | (_, v) :: rest => Value.fuel v + fuelVFields rest + 1

end

mutual

/-- `validateValue` from the source, fuelled. -/
def validateValueF : Nat → Value → FieldType → Except MErr Unit
  | 0, _, _ => .error .outOfFuel
  | fuel + 1, value, fieldType =>
    match fieldType.type with
    | "string" =>
      (match value with
       | .vStr _ => .ok ()
       | _ => .error (.expectedType "string" (goTypeName value)))
    | "int" | "int32" | "int64" =>
      (match value with
       | .vInt _ => .ok ()
       | .vFloat64 _ => .ok ()
       | _ => .error (.expectedType "integer" (goTypeName value)))
    | "float32" | "float64" =>
      (match value with
       | .vFloat32 _ => .ok ()
       | .vFloat64 _ => .ok ()
       | .vInt _ => .ok ()
       | _ => .error (.expectedType "float" (goTypeName value)))
    | "bool" =>
      (match value with
       | .vBool _ => .ok ()
       | _ => .error (.expectedType "bool" (goTypeName value)))
    | "array" =>
      (match value with
       | .vArr arr =>
         (match fieldType.elementType with
          | some et => validateElemsF fuel arr et 0
          | none => .ok ())
       | _ => .error (.expectedType "array" (goTypeName value)))
    | "object" =>
      (match value with
       | .vObj obj => validateObjF fuel fieldType.objectFields obj
       | _ => .error (.expectedType "object" (goTypeName value)))
    | t => .error (.unknownType t)

def validateElemsF : Nat → List Value → FieldType → Nat → Except MErr Unit
  | 0, _, _, _ => .error .outOfFuel
  | _ + 1, [], _, _ => .ok ()
  | fuel + 1, elem :: rest, et, idx =>
    match validateValueF fuel elem et with
    | .error e => .error (.arrayElem idx e)
    | .ok _ => validateElemsF fuel rest et (idx + 1)

def validateObjF : Nat → List (String × FieldType) → List (String × Value) →
    Except MErr Unit
  | 0, _, _ => .error .outOfFuel
  | _ + 1, [], _ => .ok ()
  | fuel + 1, (fieldName, fieldDef) :: rest, obj =>
    match mapLookup obj fieldName with
    | none => validateObjF fuel rest obj
    | some val =>
      match validateValueF fuel val fieldDef with
      | .error e => .error (.objectFieldErr fieldName e)
      | .ok _ => validateObjF fuel rest obj

end

def validateValue (value : Value) (fieldType : FieldType) : Except MErr Unit :=
  validateValueF (value.fuel + fieldType.fuel + 1) value fieldType

/-- The first loop of `Schema.ValidateData`: type-check every schema
field that is present in the data (absent fields are optional). -/
def validateFieldsLoop (data : List (String × Value)) :
    List (String × FieldType) → Except MErr Unit
  | [] => .ok ()
  | (fieldName, fieldType) :: rest =>
    match mapLookup data fieldName with
    | none => validateFieldsLoop data rest
    | some value =>
      match validateValue value fieldType with
      | .error e => .error (.validationError fieldName e)
      | .ok _ => validateFieldsLoop data rest

/-- The second loop of `Schema.ValidateData`: reject data fields
absent from the schema. -/
def checkUnknownLoop (fields : List (String × FieldType)) :
    List (String × Value) → Except MErr Unit
  | [] => .ok ()
  | (fieldName, _) :: rest =>
    match mapLookup fields fieldName with
    | none => .error (.unknownField fieldName)
    | some _ => checkUnknownLoop fields rest

/-- `Schema.ValidateData` from the source: the type-mismatch loop runs
to completion before the unknown-field loop starts. -/
def Schema.ValidateData (s : Schema) (data : List (String × Value)) : Except MErr Unit :=
  match validateFieldsLoop data s.fields with
  | .error e => .error e
  | .ok _ => checkUnknownLoop s.fields data

/-! ### Concrete fixtures used by the theorems -/

def ftString : FieldType := .mk "string" none [] [] ""

def ftInt : FieldType := .mk "int" none [] [] ""

/-- `string[]`. -/
def ftStringArr : FieldType := .mk "array" (some ftString) [] [] ""

/-- Schema `tags: string[]`. -/
def schemaTags : Schema := { fields := [("tags", ftStringArr)], fieldOrder := ["tags"] }

/-- Object type `{id:int|name:string}` as built by the schema parser. -/
def ftIdName : FieldType :=
  .mk "object" none
    [("id", .mk "int" none [] [] "id"), ("name", .mk "string" none [] [] "name")]
    ["id", "name"] ""

/-- Schema `a: int`. -/
def schemaIntA : Schema := { fields := [("a", ftInt)], fieldOrder := ["a"] }

/-- A schema whose map stores the bindings in the opposite of the
declared field order. -/
def schemaSwapped : Schema :=
  { fields := [("a", ftString), ("b", ftInt)], fieldOrder := ["b", "a"] }

/-- Modelled from the spec: per-kind scalar conversion for positional
object decoding — int kinds via base-10 integer parse, float kinds via
float parse, bool via boolean parse, anything else verbatim; a
conversion failure names the field. -/
def specConvertScalar (kind fieldName valueStr : String) : Except MErr Value :=
  match kind with
  | "int" | "int32" | "int64" =>
    (match goParseInt64 valueStr with
     | none => .error (.invalidIntegerForField fieldName valueStr)
     | some n => .ok (.vInt n))
  | "float32" =>
    if isGoFloat valueStr = true then .ok (.vFloat32 valueStr)
    else .error (.invalidFloat32ForField fieldName valueStr)
  | "float64" =>
    if isGoFloat valueStr = true then .ok (.vFloat64 valueStr)
    else .error (.invalidFloat64ForField fieldName valueStr)
  | "bool" =>
    (match goParseBool valueStr with
     | none => .error (.invalidBoolForField fieldName valueStr)
     | some b => .ok (.vBool b))
  | _ => .ok (.vStr valueStr)

/-- Modelled from the spec: the positional decode of §4.4 — position
`i` of the split maps to field `i` of the declared order (the input
comes pre-zipped, and zipping truncates to the shorter list: fewer
values leave trailing fields absent, extra values are ignored); each
value is converted per its field's kind and the result lists decoded
fields in declared order. -/
def specDecodePositional (ofs : List (String × FieldType)) :
    List (String × String) → Except MErr (List (String × Value))
  | [] => .ok []
  | (fieldName, raw) :: rest =>
    ((specConvertScalar ((mapLookup ofs fieldName).getD FieldType.zero).type
        fieldName (goTrim raw)).bind fun v =>
      (specDecodePositional ofs rest).map fun tail => (fieldName, v) :: tail)

/-- Every schema-declared field present in the data passes its kind
check (the first loop of `ValidateData` raises nothing). -/
def mismatchFreeB (s : Schema) (data : List (String × Value)) : Bool :=
  s.fields.all fun p =>
    match mapLookup data p.1 with
    | none => true
    | some v =>
      match validateValue v p.2 with
      | .ok _ => true
      | .error _ => false

end MetaDat


namespace MetaDat

/-! ### Claim theorems -/

/-- C1: the spec's round-trip identity
`parse(encode(infer_schema(v), v)) == v` fails on the code even
though the repository documents it ("100% data integrity"): for
`v = {tags: ["one"]}` — a representable tree, no null and no
heterogeneous array — the inferred schema is `tags: string[]`, the
writer emits `tags[1]: one`, and parsing that text back fails with an
array-size-mismatch error (declared 1, found 0) instead of returning
`v`. -/
theorem C1_roundtrip_fails_on_singleton_array :
    InferSchemaFromJSON (.vObj [("tags", .vArr [.vStr "one"])]) =
      { fields := [("tags", ftStringArr)], fieldOrder := ["tags"] } ∧
    writeData { fields := [("tags", ftStringArr)], fieldOrder := ["tags"] }
      [("tags", .vArr [.vStr "one"])] = .ok "tags[1]: one\n" ∧
    ParseData { fields := [("tags", ftStringArr)], fieldOrder := ["tags"] }
      "tags[1]: one\n" =
      .error (.errorParsingField "tags" (.arraySizeMismatch 1 0)) :=
  ⟨rfl, rfl, rfl⟩

/-- C4: the object-expression splitter of the schema grammar is
pipe-depth-aware: a `|` nested inside deeper braces does not split,
and `{a:{b:int|c:string}|d:bool}` parses into an object with exactly
the two top-level fields `a` (nested object with fields `b:int`,
`c:string`) and `d` (bool). -/
theorem C4_pipe_depth_aware_splitting :
    splitObjectFields "a:{b:int|c:string}|d:bool" =
      ["a:{b:int|c:string}", "d:bool"] ∧
    parseType "{a:{b:int|c:string}|d:bool}" =
      .ok (.mk "object" none
        [("a", .mk "object" none
          [("b", .mk "int" none [] [] "b"), ("c", .mk "string" none [] [] "c")]
          ["b", "c"] "a"),
         ("d", .mk "bool" none [] [] "d")]
        ["a", "d"] "") :=
  ⟨rfl, rfl⟩

/-- C7 counterexample: inference on an empty array does NOT produce a
string-placeholder element type — the element type is absent
(`ElementType == nil`), and the rendered form `[]` is not
re-parseable (`parseType` rejects the empty element type string), so
the claim's "string placeholder, always renderable and re-parseable"
is false at the input `[]`. -/
theorem C7_counterexample :
    inferFieldType (.vArr []) = .mk "array" none [] [] "" ∧
    (inferFieldType (.vArr [])).elementType ≠ some ftString ∧
    parseType (fieldTypeToString (inferFieldType (.vArr []))) =
      .error (.unknownType "") :=
  ⟨rfl, fun h => Option.noConfusion h, rfl⟩

/-- C7 amended: array inference takes the element type from the first
element only (independent of the remaining elements); an empty array
infers an array type with NO element type, which renders as `[]` and
does not re-parse; inference is total and falls back to `string`
(e.g. on null). -/
theorem C7_amended :
    (∀ (x : Value) (xs : List Value),
      inferFieldType (.vArr (x :: xs)) =
        .mk "array" (some (inferFieldType x)) [] [] "") ∧
    (inferFieldType (.vArr [])).elementType = none ∧
    inferFieldType .vNull = ftString ∧
    fieldTypeToString (inferFieldType (.vArr [])) = "[]" ∧
    parseType "[]" = .error (.unknownType "") :=
  ⟨fun _ _ => rfl, rfl, rfl, rfl, rfl⟩

/-- C8 counterexample: a duplicate top-level declaration does NOT make
the schema behave as if the field were declared once — the field
order records the name once per declaration, so `a: int` followed by
`a: string` yields field order `["a", "a"]` and rendering emits the
(later) declaration twice. -/
theorem C8_counterexample :
    parseSchema "a: int\na: string" =
      .ok { fields := [("a", ftString)], fieldOrder := ["a", "a"] } ∧
    Schema.ToString { fields := [("a", ftString)], fieldOrder := ["a", "a"] } =
      "    a: string\n    a: string\n" ∧
    Schema.ToString { fields := [("a", ftString)], fieldOrder := ["a", "a"] } ≠
      "    a: string\n" :=
  ⟨rfl, rfl, by decide⟩

/-- C8 amended: a later declaration of the same name silently
overwrites the earlier one in the field map (no error is raised), but
the name is appended to the field order once per declaration, so the
duplicate appears twice in the order and rendering emits the later
type twice. -/
theorem C8_amended :
    (∀ (m : List (String × FieldType)) (n : String) (ft1 ft2 : FieldType),
      mapLookup (mapInsert (mapInsert m n ft1) n ft2) n = some ft2) ∧
    parseSchema "a: int\na: string" =
      .ok { fields := [("a", ftString)], fieldOrder := ["a", "a"] } ∧
    Schema.ToString { fields := [("a", ftString)], fieldOrder := ["a", "a"] } =
      "    a: string\n    a: string\n" := by
  refine ⟨?_, rfl, rfl⟩
  intro m n ft1 ft2
  induction m with
  | nil => simp [mapInsert, mapLookup]
  | cons kw rest ih =>
    obtain ⟨k, w⟩ := kw
    by_cases h : k = n
    · simp [mapInsert, h, mapLookup]
    · simp [mapInsert, h, mapLookup, ih]

/-! ### Helper lemmas -/

theorem strEq_of_data {a b : String} (h : a.data = b.data) : a = b := by
  cases a; cases b; cases h; rfl

theorem containsCh_append (l1 l2 : List Char) (c : Char) :
    (l1 ++ l2).contains c = (l1.contains c || l2.contains c) := by
  induction l1 with
  | nil => rfl
  | cons d rest ih =>
    by_cases h : c = d
    · simp [List.contains, List.elem, h]
    · simp [List.contains, List.elem, beq_false_of_ne h]

theorem toString_one_nat : toString (1 : Nat) = "1" := rfl

/-- The declared-size multi-line loop never accumulates past a
positive declared size. -/
theorem pawdsLoop_length_le (et : Option FieldType) (N : Int) :
    ∀ (rest : List String) (i : Nat) (acc res : List Value) (j : Nat),
      0 < N → (acc.length : Int) ≤ N →
      pawdsLoop et N rest i acc = .ok (res, j) → (res.length : Int) ≤ N := by
  intro rest
  induction rest with
  | nil =>
    intro i acc res j hN hacc h
    simp only [pawdsLoop, Except.ok.injEq, Prod.mk.injEq] at h
    obtain ⟨h1, _⟩ := h
    exact h1 ▸ hacc
  | cons line rest ih =>
    intro i acc res j hN hacc h
    simp only [pawdsLoop] at h
    split at h
    · simp only [Except.ok.injEq, Prod.mk.injEq] at h
      obtain ⟨h1, _⟩ := h
      exact h1 ▸ hacc
    · rename_i hcond
      have haccLt : (acc.length : Int) < N := by
        rcases not_not.mp hcond with h0 | hlt
        · omega
        · exact hlt
      have hacc1 : ∀ x : Value, (((acc ++ [x]).length : Nat) : Int) ≤ N := by
        intro x
        simp only [List.length_append, List.length_singleton]
        push_cast
        omega
      split at h
      · simp only [Except.ok.injEq, Prod.mk.injEq] at h
        obtain ⟨h1, _⟩ := h
        exact h1 ▸ hacc
      · split at h
        · exact ih _ _ _ _ hN hacc h
        · split at h
          · split at h
            · split at h
              · exact Except.noConfusion h
              · exact ih _ _ _ _ hN (hacc1 _) h
            · exact ih _ _ _ _ hN (hacc1 _) h
          · exact ih _ _ _ _ hN (hacc1 _) h

theorem containsCh_false_of_mem_imp (l1 l2 : List Char) (c : Char)
    (hsub : ∀ x ∈ l1, x ∈ l2) (h : l2.contains c = false) : l1.contains c = false := by
  by_contra hc
  rw [Bool.not_eq_false] at hc
  have h2 := List.elem_iff.mpr (hsub c (List.elem_iff.mp hc))
  simp only [List.contains] at h
  rw [h] at h2
  exact Bool.noConfusion h2

/-- Trimming trailing newlines never introduces a character. -/
theorem trimRightNl_containsCh_false (s : String) (c : Char)
    (h : goContainsChar s c = false) :
    goContainsChar (trimRightNl s) c = false := by
  simp only [goContainsChar, trimRightNl] at h ⊢
  refine containsCh_false_of_mem_imp _ _ _ ?_ h
  intro x hx
  rw [List.mem_reverse] at hx
  have hx2 := (List.dropWhile_sublist _).subset hx
  rwa [List.mem_reverse] at hx2

/-- C10: for an array field of scalar element type with exactly one
element the writer emits the single line `name[1]: v` with trailing
newlines trimmed (pipe-free whenever the name and the rendered
element are pipe-free), and the parser, given a declared size of 1, a
pipe-free inline value and no following indented lines, takes the
multi-line path, finds zero elements and fails with an array size
mismatch (declared 1, found 0) — so the emitted one-element array
does not parse back. -/
theorem C10_singleton_array_write_then_parse_fails :
    (∀ (name : String) (item : Value) (ft et : FieldType),
      ft.type = "array" → ft.elementType = some et → isSimpleType et.type = true →
      writeField name (.vArr [item]) ft 0 =
        .ok (trimRightNl (name ++ "[1]: " ++ govRender item))) ∧
    (∀ (a b : String), goContainsChar a '|' = false → goContainsChar b '|' = false →
      goContainsChar (trimRightNl (a ++ "[1]: " ++ b)) '|' = false) ∧
    (∀ (ft : FieldType) (v : String) (lines : List String) (i : Nat),
      goContainsChar v '|' = false → lines.drop (i + 1) = [] →
      parseArrayWithDeclaredSize ft v lines i 1 =
        .error (.arraySizeMismatch 1 0)) := by
  refine ⟨?_, ?_, ?_⟩
  · intro name item ft et hty hel hsimple
    simp only [writeField, hty, hel, hsimple, if_true, goRepeat, List.replicate,
      String.join, List.foldl, joinSep, List.map, List.length_singleton]
    rw [if_neg (by omega)]
    refine congrArg Except.ok (congrArg trimRightNl (strEq_of_data ?_))
    simp only [String.data_append, toString_one_nat]
    simp [String.append_assoc, String.data_append]
  · intro a b ha hb
    refine trimRightNl_containsCh_false _ _ ?_
    simp only [goContainsChar] at ha hb ⊢
    rw [String.data_append, String.data_append, containsCh_append, containsCh_append,
      ha, hb]
    rfl
  · intro ft v lines i hv hl
    simp only [parseArrayWithDeclaredSize]
    rw [if_neg (fun hc => by rw [hv] at hc; exact Bool.noConfusion hc.2)]
    rw [hl]
    simp only [pawdsLoop]
    rw [if_pos ⟨by decide, by simp⟩]
    rfl

/-- C10 witness: the general statement instantiated at
`tags: string[]` with the single element `"one"`. -/
theorem C10_witness :
    writeField "tags" (.vArr [.vStr "one"]) ftStringArr 0 = .ok "tags[1]: one" ∧
    goContainsChar "tags[1]: one" '|' = false ∧
    parseArrayWithDeclaredSize ftStringArr "one" ["tags[1]: one"] 0 1 =
      .error (.arraySizeMismatch 1 0) := by
  refine ⟨?_, ?_, ?_⟩
  · have h := C10_singleton_array_write_then_parse_fails.1 "tags" (.vStr "one")
      ftStringArr ftString rfl rfl rfl
    rw [h]
    rfl
  · exact C10_singleton_array_write_then_parse_fails.2.1 "tags" "one" rfl rfl
  · exact C10_singleton_array_write_then_parse_fails.2.2 ftStringArr "one"
      ["tags[1]: one"] 0 rfl rfl

/-- C2 counterexample: with a declared size of zero the parser
performs no count check at all — the inline line `x|y` under a
declared `[0]` parses successfully to two elements instead of failing
with an array-size-mismatch error, refuting "this holds for every
declared N, including N = 0". -/
theorem C2_counterexample :
    parseArrayWithDeclaredSize ftStringArr "x|y" ["a[0]: x|y"] 0 0 =
      .ok ([.vStr "x", .vStr "y"], 1) ∧
    parseArrayWithDeclaredSize ftStringArr "x|y" ["a[0]: x|y"] 0 0 ≠
      .error (.arraySizeMismatch 0 2) := by
  refine ⟨rfl, fun h => ?_⟩
  have h2 : (Except.ok ([Value.vStr "x", Value.vStr "y"], 1) :
      Except MErr (List Value × Nat)) = .error (.arraySizeMismatch 0 2) := h
  exact Except.noConfusion h2

/-- C2 amended: the size check fires only for a positive declared
size N. Inline (a non-empty pipe-containing value): parsing fails with
an array-size-mismatch error exactly when the pipe-split count differs
from N. Multi-line: the element loop never reads past N elements (so a
longer indented block is left unconsumed, not errored inside the array
parse), and parsing fails with an array-size-mismatch error exactly
when the loop yields fewer than N elements. For N = 0 no count check
applies. -/
theorem C2_amended :
    (∀ (ft : FieldType) (v : String) (lines : List String) (i : Nat) (N : Int),
      0 < N → v ≠ "" → goContainsChar v '|' = true →
      parseArrayWithDeclaredSize ft v lines i N =
        if ((goSplit v '|').length : Int) = N then
          .ok ((goSplit v '|').map (fun x => .vStr (goTrim x)), i + 1)
        else .error (.arraySizeMismatch N (goSplit v '|').length)) ∧
    (∀ (ft : FieldType) (v : String) (lines : List String) (i : Nat) (N : Int)
       (res : List Value) (j : Nat),
      0 < N → (v = "" ∨ goContainsChar v '|' = false) →
      pawdsLoop ft.elementType N (lines.drop (i + 1)) (i + 1) [] = .ok (res, j) →
      (res.length : Int) ≤ N ∧
      parseArrayWithDeclaredSize ft v lines i N =
        if (res.length : Int) = N then .ok (res, j)
        else .error (.arraySizeMismatch N res.length)) := by
  constructor
  · intro ft v lines i N hN hv hp
    simp only [parseArrayWithDeclaredSize]
    rw [if_pos ⟨hv, hp⟩]
    by_cases hl : ((goSplit v '|').length : Int) = N
    · rw [if_neg (fun hc => hc.2 hl), if_pos hl]
    · rw [if_pos ⟨hN, hl⟩, if_neg hl]
  · intro ft v lines i N res j hN hv hloop
    have hcond : ¬ (v ≠ "" ∧ goContainsChar v '|' = true) := by
      rcases hv with h | h
      · exact fun hc => hc.1 h
      · exact fun hc => by rw [h] at hc; exact Bool.noConfusion hc.2
    refine ⟨pawdsLoop_length_le _ _ _ _ _ _ _ hN (by simp; omega) hloop, ?_⟩
    simp only [parseArrayWithDeclaredSize]
    rw [if_neg hcond]
    simp only [hloop]
    by_cases hl : (res.length : Int) = N
    · rw [if_neg (fun hc => hc.2 hl), if_pos hl]
    · rw [if_pos ⟨hN, hl⟩, if_neg hl]

/-- C2 witness: the amended statement instantiated concretely — an
inline declared size 3 against 2 components fails with the mismatch
error, and a multi-line declared size 2 over a single indented element
line fails with declared 2, found 1. -/
theorem C2_witness :
    parseArrayWithDeclaredSize ftStringArr "a|b" [] 0 3 =
      .error (.arraySizeMismatch 3 2) ∧
    parseArrayWithDeclaredSize ftStringArr "" ["x[2]:", "    x"] 0 2 =
      .error (.arraySizeMismatch 2 1) := by
  constructor
  · have h := C2_amended.1 ftStringArr "a|b" [] 0 3 (by omega) (by decide) rfl
    rw [h, if_neg (by decide)]
    rfl
  · have h := (C2_amended.2 ftStringArr "" ["x[2]:", "    x"] 0 2 [.vStr "x"] 2
      (by omega) (Or.inl rfl) rfl).2
    rw [h, if_neg (by decide)]
    rfl

/-- Rendering a schema with a non-empty declared order evaluates the
declared order, field by field, against the field map. -/
theorem toString_of_order_cons (fields : List (String × FieldType)) (o : String)
    (os : List String) :
    Schema.ToString { fields := fields, fieldOrder := o :: os } =
      String.join ((o :: os).map fun n =>
        "    " ++ n ++ ": " ++
          fieldTypeToString ((mapLookup fields n).getD FieldType.zero) ++ "\n") := by
  simp only [Schema.ToString, Schema.GetFieldOrder]
  rw [if_pos (by simp)]

/-- One unfolding step of `fieldTypeToString` on an object type with a
non-empty declared order: the declared order drives the rendering. -/
theorem fieldTypeToStringF_object_cons (fuel : Nat) (et : Option FieldType)
    (ofs : List (String × FieldType)) (o : String) (os : List String) (nm : String) :
    fieldTypeToStringF (fuel + 1) (.mk "object" et ofs (o :: os) nm) =
      "\x7b" ++ joinSep "|" ((o :: os).map fun n =>
        n ++ ":" ++ (match mapLookup ofs n with
                     | some f => fieldTypeToStringF fuel f
                     | none => "")) ++ "\x7d" := rfl

/-- C3: rendering a schema lists the top-level field declarations in
exactly the declared order, regardless of the arrangement of the
underlying field map (the output depends on the map only through
per-name lookups); likewise rendering an object type lists its fields
in the declared object order. -/
theorem C3_render_preserves_declared_order :
    (∀ (s : Schema), s.fieldOrder ≠ [] →
      Schema.ToString s = String.join (s.fieldOrder.map fun n =>
        "    " ++ n ++ ": " ++
          fieldTypeToString ((mapLookup s.fields n).getD FieldType.zero) ++ "\n")) ∧
    (∀ (s t : Schema), s.fieldOrder = t.fieldOrder → s.fieldOrder ≠ [] →
      (∀ n, mapLookup s.fields n = mapLookup t.fields n) →
      Schema.ToString s = Schema.ToString t) ∧
    (∀ (et : Option FieldType) (ofs : List (String × FieldType))
       (oord : List String) (nm : String), oord ≠ [] →
      ∃ parts : List String,
        fieldTypeToString (.mk "object" et ofs oord nm) =
          "\x7b" ++ joinSep "|" parts ++ "\x7d" ∧
        parts.length = oord.length ∧
        ∀ i (h1 : i < parts.length) (h2 : i < oord.length),
          ∃ body, parts.get ⟨i, h1⟩ = oord.get ⟨i, h2⟩ ++ ":" ++ body) := by
  refine ⟨?_, ?_, ?_⟩
  · intro s h
    obtain ⟨fields, order⟩ := s
    cases order with
    | nil => exact absurd rfl h
    | cons o os => exact toString_of_order_cons fields o os
  · intro s t ho hne hl
    obtain ⟨sf, sorder⟩ := s
    obtain ⟨tf, torder⟩ := t
    simp only at ho
    subst ho
    cases sorder with
    | nil => exact absurd rfl hne
    | cons o os =>
      rw [toString_of_order_cons, toString_of_order_cons]
      refine congrArg String.join (List.map_congr_left fun n _ => ?_)
      rw [hl n]
  · intro et ofs oord nm h
    cases oord with
    | nil => exact absurd rfl h
    | cons o os =>
      cases et with
      | none =>
        refine ⟨_, fieldTypeToStringF_object_cons (fuelFields ofs) none ofs o os nm,
          by simp, ?_⟩
        intro i h1 h2
        exact ⟨(match mapLookup ofs ((o :: os).get ⟨i, h2⟩) with
                | some f => fieldTypeToStringF (fuelFields ofs) f
                | none => ""),
          by simp only [List.get_eq_getElem, List.getElem_map]⟩
      | some e =>
        refine ⟨_,
          fieldTypeToStringF_object_cons (e.fuel + fuelFields ofs) (some e) ofs o os nm,
          by simp, ?_⟩
        intro i h1 h2
        exact ⟨(match mapLookup ofs ((o :: os).get ⟨i, h2⟩) with
                | some f => fieldTypeToStringF (e.fuel + fuelFields ofs) f
                | none => ""),
          by simp only [List.get_eq_getElem, List.getElem_map]⟩

/-- C3 witness: a schema whose map stores `a` before `b` but declares
order `[b, a]` renders `b` first; the object type
`{id:int|name:string}` renders its two fields in declared order. -/
theorem C3_witness :
    Schema.ToString schemaSwapped = "    b: int\n    a: string\n" ∧
    (∃ parts : List String,
      fieldTypeToString ftIdName = "\x7b" ++ joinSep "|" parts ++ "\x7d" ∧
      parts.length = (["id", "name"] : List String).length ∧
      ∀ i (h1 : i < parts.length) (h2 : i < (["id", "name"] : List String).length),
        ∃ body, parts.get ⟨i, h1⟩ =
          (["id", "name"] : List String).get ⟨i, h2⟩ ++ ":" ++ body) := by
  constructor
  · rw [C3_render_preserves_declared_order.1 schemaSwapped (by decide)]
    rfl
  · exact C3_render_preserves_declared_order.2.2 none
      [("id", .mk "int" none [] [] "id"), ("name", .mk "string" none [] [] "name")]
      ["id", "name"] "" (by decide)

/-- C9 counterexample: for an `int` field with an empty same-line
value, the claim says an unindented next line is never consumed (the
empty same-line text would be used and fail to parse); the code
instead consumes the unindented colon-free next line `5` as the value
and advances the cursor two lines. -/
theorem C9_counterexample :
    parseValue ftInt "" ["cnt:", "5"] 0 = .ok (.vInt 5, 2) ∧
    parseValue ftInt "" ["cnt:", "5"] 0 ≠ .error (.invalidInteger "") := by
  refine ⟨rfl, fun h => ?_⟩
  have h2 : (Except.ok (Value.vInt 5, 2) : Except MErr (Value × Nat)) =
      .error (.invalidInteger "") := h
  exact Except.noConfusion h2

/-- C9 amended: the scalar look-ahead rule is NOT uniform across
kinds. String kind: when the same-line value is empty and the next
line starts with four spaces or a tab, that line's trimmed text is the
value and the cursor advances two lines — with no colon condition;
otherwise the same-line text is used and the cursor advances one
line. Int, float and bool kinds: when the same-line value is empty and
the trimmed next line is non-empty and colon-free — indentation
irrelevant — that trimmed text is parsed as the value and the cursor
advances two lines; otherwise the same-line text is parsed and the
cursor advances one line. -/
theorem C9_amended :
    (∀ (ft : FieldType) (lines : List String) (i : Nat),
      ft.type = "string" → i + 1 < lines.length →
      (goStartsWith (getLine lines (i + 1)) "    " = true ∨
       goStartsWith (getLine lines (i + 1)) "\t" = true) →
      parseValue ft "" lines i = .ok (.vStr (goTrim (getLine lines (i + 1))), i + 2)) ∧
    (∀ (ft : FieldType) (v : String) (lines : List String) (i : Nat),
      ft.type = "string" →
      (v ≠ "" ∨ lines.length ≤ i + 1 ∨
        (goStartsWith (getLine lines (i + 1)) "    " = false ∧
         goStartsWith (getLine lines (i + 1)) "\t" = false)) →
      parseValue ft v lines i = .ok (.vStr v, i + 1)) ∧
    (∀ (ft : FieldType) (lines : List String) (i : Nat),
      (ft.type = "int" ∨ ft.type = "int32" ∨ ft.type = "int64") →
      i + 1 < lines.length →
      goTrim (getLine lines (i + 1)) ≠ "" →
      goContainsChar (goTrim (getLine lines (i + 1))) ':' = false →
      parseValue ft "" lines i =
        (match goParseInt64 (goTrim (goTrim (getLine lines (i + 1)))) with
         | none => .error (.invalidInteger (goTrim (getLine lines (i + 1))))
         | some n => .ok (.vInt n, i + 2))) ∧
    (∀ (ft : FieldType) (v : String) (lines : List String) (i : Nat),
      (ft.type = "int" ∨ ft.type = "int32" ∨ ft.type = "int64") →
      (v ≠ "" ∨ lines.length ≤ i + 1 ∨ goTrim (getLine lines (i + 1)) = "" ∨
        goContainsChar (goTrim (getLine lines (i + 1))) ':' = true) →
      parseValue ft v lines i =
        (match goParseInt64 (goTrim v) with
         | none => .error (.invalidInteger v)
         | some n => .ok (.vInt n, i + 1))) ∧
    (∀ (ft : FieldType) (lines : List String) (i : Nat),
      ft.type = "bool" → i + 1 < lines.length →
      goTrim (getLine lines (i + 1)) ≠ "" →
      goContainsChar (goTrim (getLine lines (i + 1))) ':' = false →
      parseValue ft "" lines i =
        (match goParseBool (goTrim (goTrim (getLine lines (i + 1)))) with
         | none => .error (.invalidBool (goTrim (getLine lines (i + 1))))
         | some b => .ok (.vBool b, i + 2))) ∧
    (∀ (ft : FieldType) (lines : List String) (i : Nat),
      ft.type = "float64" → i + 1 < lines.length →
      goTrim (getLine lines (i + 1)) ≠ "" →
      goContainsChar (goTrim (getLine lines (i + 1))) ':' = false →
      parseValue ft "" lines i =
        (if isGoFloat (goTrim (goTrim (getLine lines (i + 1)))) = true then
          .ok (.vFloat64 (goTrim (goTrim (getLine lines (i + 1)))), i + 2)
         else .error (.invalidFloat64 (goTrim (getLine lines (i + 1)))))) := by
  refine ⟨?_, ?_, ?_, ?_, ?_, ?_⟩
  · intro ft lines i hty hlen hind
    simp only [parseValue, parseValueF, hty]
    rw [if_pos ⟨trivial, hlen⟩, if_pos hind]
  · intro ft v lines i hty hfall
    simp only [parseValue, parseValueF, hty]
    rcases hfall with hv | hlen | hind
    · rw [if_neg (fun hc => hv hc.1)]
    · rw [if_neg (fun hc => absurd hc.2 (not_lt.mpr hlen))]
    · by_cases hv : v = ""
      · subst hv
        by_cases hl2 : i + 1 < lines.length
        · rw [if_pos ⟨rfl, hl2⟩, if_neg ?_]
          rintro (hc | hc)
          · exact Bool.noConfusion (hind.1.symm.trans hc)
          · exact Bool.noConfusion (hind.2.symm.trans hc)
        · rw [if_neg (fun hc => hl2 hc.2)]
      · rw [if_neg (fun hc => hv hc.1)]
  · intro ft lines i hty hlen hne hcol
    rcases hty with h | h | h <;>
    · simp only [parseValue, parseValueF, h]
      rw [if_pos ⟨trivial, hlen⟩, if_pos ⟨hne, hcol⟩]
  · intro ft v lines i hty hfall
    rcases hty with h | h | h <;>
    · simp only [parseValue, parseValueF, h]
      rcases hfall with hv | hlen | hblank | hcol
      · rw [if_neg (fun hc => hv hc.1)]
      · rw [if_neg (fun hc => absurd hc.2 (not_lt.mpr hlen))]
      · by_cases hv : v = ""
        · subst hv
          by_cases hl2 : i + 1 < lines.length
          · rw [if_pos ⟨rfl, hl2⟩, if_neg (fun hc => hc.1 hblank)]
          · rw [if_neg (fun hc => hl2 hc.2)]
        · rw [if_neg (fun hc => hv hc.1)]
      · by_cases hv : v = ""
        · subst hv
          by_cases hl2 : i + 1 < lines.length
          · rw [if_pos ⟨rfl, hl2⟩,
              if_neg (fun hc => Bool.noConfusion (hcol.symm.trans hc.2))]
          · rw [if_neg (fun hc => hl2 hc.2)]
        · rw [if_neg (fun hc => hv hc.1)]
  · intro ft lines i hty hlen hne hcol
    simp only [parseValue, parseValueF, hty]
    rw [if_pos ⟨trivial, hlen⟩, if_pos ⟨hne, hcol⟩]
  · intro ft lines i hty hlen hne hcol
    by_cases hf : isGoFloat (goTrim (goTrim (getLine lines (i + 1)))) = true
    · simp only [parseValue, parseValueF, hty]
      simp [hlen, hne, hcol, hf]
    · simp only [parseValue, parseValueF, hty]
      simp [hlen, hne, hcol, hf]

/-- C9 witness: the amended rules instantiated — an indented
colon-containing next line is consumed for a string; an unindented
next line `5` is consumed for an int; a blank next line falls back to
the (empty) same-line text for an int; bool and float64 consume a
colon-free next line. -/
theorem C9_witness :
    parseValue ftString "" ["s:", "    a: b"] 0 = .ok (.vStr "a: b", 2) ∧
    parseValue ftInt "" ["n:", "7"] 0 = .ok (.vInt 7, 2) ∧
    parseValue ftInt "" ["n:", ""] 0 = .error (.invalidInteger "") ∧
    parseValue (ftScalar "bool") "" ["b:", "  true"] 0 = .ok (.vBool true, 2) ∧
    parseValue (ftScalar "float64") "" ["f:", "1.5"] 0 = .ok (.vFloat64 "1.5", 2) := by
  refine ⟨?_, ?_, ?_, ?_, ?_⟩
  · have h := C9_amended.1 ftString ["s:", "    a: b"] 0 rfl (by decide) (Or.inl rfl)
    simpa using h
  · have h := C9_amended.2.2.1 ftInt ["n:", "7"] 0 (Or.inl rfl) (by decide)
      (by decide) rfl
    simpa using h
  · have h := C9_amended.2.2.2.1 ftInt "" ["n:", ""] 0 (Or.inl rfl)
      (Or.inr (Or.inr (Or.inl rfl)))
    simpa using h
  · have h := C9_amended.2.2.2.2.1 (ftScalar "bool") ["b:", "  true"] 0 rfl
      (by decide) (by decide) rfl
    simpa using h
  · have h := C9_amended.2.2.2.2.2 (ftScalar "float64") ["f:", "1.5"] 0 rfl
      (by decide) (by decide) rfl
    simpa using h

/-! ### C5: positional object decoding refines the spec's rule -/

theorem mapLookup_mapInsert_ne {α : Type} (m : List (String × α)) (n k : String)
    (v : α) (h : k ≠ n) : mapLookup (mapInsert m n v) k = mapLookup m k := by
  induction m with
  | nil =>
    simp only [mapInsert, mapLookup]
    rw [if_neg (fun he => h he.symm)]
  | cons kw rest ih =>
    obtain ⟨k0, w⟩ := kw
    by_cases h0 : k0 = n
    · subst h0
      simp only [mapInsert, if_pos rfl, mapLookup]
      rw [if_neg (fun he => h he.symm), if_neg (fun he => h he.symm)]
    · simp only [mapInsert, if_neg h0, mapLookup]
      by_cases h1 : k0 = k
      · simp [h1]
      · simp [h1, ih]

theorem mapInsert_of_lookup_none {α : Type} (m : List (String × α)) (n : String)
    (v : α) (h : mapLookup m n = none) : mapInsert m n v = m ++ [(n, v)] := by
  induction m with
  | nil => simp [mapInsert]
  | cons kw rest ih =>
    obtain ⟨k0, w⟩ := kw
    simp only [mapLookup] at h
    by_cases h0 : k0 = n
    · rw [if_pos h0] at h
      exact Option.noConfusion h
    · rw [if_neg h0] at h
      simp [mapInsert, h0, ih h]

theorem exceptMap_congr {α β ε : Type} (x : Except ε α) (f g : α → β)
    (h : ∀ a, f a = g a) : x.map f = x.map g := by
  cases x with
  | error e => rfl
  | ok a => simp [Except.map, h]

theorem exceptMap_map {α β γ ε : Type} (x : Except ε α) (f : α → β) (g : β → γ) :
    (x.map f).map g = x.map fun a => g (f a) := by
  cases x with
  | error e => rfl
  | ok a => rfl

/-- One step of the positional loop is the spec's per-kind conversion
followed by the rest of the loop. -/
theorem pofLoop_cons (n : String) (ns : List String) (v : String) (vs : List String)
    (ofs : List (String × FieldType)) (acc : List (String × Value)) :
    pofLoop (n :: ns) (v :: vs) ofs acc =
      (specConvertScalar ((mapLookup ofs n).getD FieldType.zero).type n
          (goTrim v)).bind fun val => pofLoop ns vs ofs (mapInsert acc n val) := by
  simp only [pofLoop]
  split
  · rename_i heq
    simp only [heq, specConvertScalar]
    split <;> rfl
  · rename_i heq
    simp only [heq, specConvertScalar]
    split <;> rfl
  · rename_i heq
    simp only [heq, specConvertScalar]
    split <;> rfl
  · rename_i heq
    simp only [heq, specConvertScalar]
    split <;> rfl
  · rename_i heq
    simp only [heq, specConvertScalar]
    split <;> rfl
  · rename_i heq
    simp only [heq, specConvertScalar]
    split <;> rfl
  · rw [specConvertScalar.eq_def]
    split
    all_goals
      first
        | rfl
        | (rename_i heq; exact absurd heq (by assumption))

/-- The positional loop, started from any accumulator whose keys are
disjoint from the remaining (duplicate-free) field names, appends the
spec's zip-decode of those names to the accumulator. -/
theorem pofLoop_eq_spec :
    ∀ (order values : List String) (ofs : List (String × FieldType))
      (acc : List (String × Value)),
      order.Nodup → (∀ n ∈ order, mapLookup acc n = none) →
      pofLoop order values ofs acc =
        (specDecodePositional ofs (order.zip values)).map fun tail => acc ++ tail := by
  intro order
  induction order with
  | nil => intro values ofs acc _ _; simp [pofLoop, specDecodePositional, Except.map]
  | cons n ns ih =>
    intro values ofs acc hnd hfresh
    cases values with
    | nil => simp [pofLoop, specDecodePositional, Except.map]
    | cons v vs =>
      have hnotmem : n ∉ ns := (List.nodup_cons.mp hnd).1
      have hndtail : ns.Nodup := (List.nodup_cons.mp hnd).2
      have hfreshn : mapLookup acc n = none := hfresh n (List.mem_cons_self n ns)
      have hfresh2 : ∀ (x : Value), ∀ m ∈ ns,
          mapLookup (mapInsert acc n x) m = none := by
        intro x m hm
        rw [mapLookup_mapInsert_ne acc n m x (fun he => hnotmem (he ▸ hm))]
        exact hfresh m (List.mem_cons_of_mem n hm)
      have happend : ∀ (x : Value) (tail : List (String × Value)),
          mapInsert acc n x ++ tail = acc ++ (n, x) :: tail := by
        intro x tail
        rw [mapInsert_of_lookup_none acc n x hfreshn, List.append_assoc]
        rfl
      rw [pofLoop_cons]
      simp only [specDecodePositional, List.zip_cons_cons]
      cases hconv : specConvertScalar ((mapLookup ofs n).getD FieldType.zero).type n
          (goTrim v) with
      | error e => simp [Except.bind, Except.map]
      | ok val =>
        simp only [Except.bind]
        rw [ih vs ofs _ hndtail (hfresh2 val), exceptMap_map]
        exact exceptMap_congr _ _ _ fun tail => happend val tail

/-- C5: the pipe-split object decoder realizes the spec's positional
rule — for a duplicate-free declared field order, decoding a line
equals the spec-modelled zip-decode (position i maps to field i,
trailing fields absent when values run short, extra values ignored,
conversion per field kind, failures naming the field); on the spec's
own example, `7|x` against `{id:int|name:string}` yields
`{id: 7, name: "x"}`, extra values are ignored and missing values
leave fields absent. -/
theorem C5_positional_object_decode :
    (∀ (ft : FieldType) (line : String),
      (getObjectFieldOrder ft).Nodup →
      parseObjectFromLine line ft =
        specDecodePositional ft.objectFields
          ((getObjectFieldOrder ft).zip (goSplit line '|'))) ∧
    parseObjectFromLine "7|x" ftIdName = .ok [("id", .vInt 7), ("name", .vStr "x")] ∧
    parseObjectFromLine "7|x|9" ftIdName = .ok [("id", .vInt 7), ("name", .vStr "x")] ∧
    parseObjectFromLine "7" ftIdName = .ok [("id", .vInt 7)] ∧
    parseObjectFromLine "q|x" ftIdName = .error (.invalidIntegerForField "id" "q") := by
  refine ⟨?_, rfl, rfl, rfl, rfl⟩
  intro ft line hnd
  rw [parseObjectFromLine, pofLoop_eq_spec _ _ _ [] hnd (fun n _ => rfl)]
  cases specDecodePositional ft.objectFields ((getObjectFieldOrder ft).zip (goSplit line '|')) with
  | error e => rfl
  | ok tail => simp [Except.map]

/-- C5 witness: the refinement instantiated at `{id:int|name:string}`
(duplicate-free declared order) and the line `7|x`. -/
theorem C5_witness :
    parseObjectFromLine "7|x" ftIdName =
      specDecodePositional ftIdName.objectFields
        ((getObjectFieldOrder ftIdName).zip (goSplit "7|x" '|')) := by
  exact C5_positional_object_decode.1 ftIdName "7|x" (by decide)

/-! ### C6: validation order and error naming -/

theorem validateFieldsLoop_ok (data : List (String × Value)) :
    ∀ fields : List (String × FieldType),
      (fields.all fun p =>
        match mapLookup data p.1 with
        | none => true
        | some v =>
          match validateValue v p.2 with
          | .ok _ => true
          | .error _ => false) = true →
      validateFieldsLoop data fields = .ok () := by
  intro fields
  induction fields with
  | nil => intro _; rfl
  | cons p rest ih =>
    intro hall
    rw [List.all_cons, Bool.and_eq_true] at hall
    obtain ⟨k, ft⟩ := p
    cases hl : mapLookup data k with
    | none =>
      simp only [validateFieldsLoop, hl]
      exact ih hall.2
    | some v =>
      have h1 := hall.1
      cases hv : validateValue v ft with
      | ok u =>
        simp only [validateFieldsLoop, hl, hv]
        exact ih hall.2
      | error e =>
        simp only [hl, hv] at h1
        exact Bool.noConfusion h1

theorem validateFieldsLoop_error (data : List (String × Value)) :
    ∀ fields : List (String × FieldType),
      (fields.all fun p =>
        match mapLookup data p.1 with
        | none => true
        | some v =>
          match validateValue v p.2 with
          | .ok _ => true
          | .error _ => false) = false →
      ∃ n e ft v, validateFieldsLoop data fields = .error (.validationError n e) ∧
        (n, ft) ∈ fields ∧ mapLookup data n = some v ∧
        validateValue v ft = .error e := by
  intro fields
  induction fields with
  | nil => intro h; exact Bool.noConfusion h
  | cons p rest ih =>
    intro hall
    obtain ⟨k, ft⟩ := p
    rw [List.all_cons] at hall
    cases hl : mapLookup data k with
    | none =>
      simp only [hl, Bool.true_and] at hall
      obtain ⟨n, e, ft', v, h1, h2, h3, h4⟩ := ih hall
      refine ⟨n, e, ft', v, ?_, List.mem_cons_of_mem _ h2, h3, h4⟩
      simp only [validateFieldsLoop, hl]
      exact h1
    | some v =>
      cases hv : validateValue v ft with
      | ok u =>
        simp only [hl, hv, Bool.true_and] at hall
        obtain ⟨n, e, ft', v', h1, h2, h3, h4⟩ := ih hall
        refine ⟨n, e, ft', v', ?_, List.mem_cons_of_mem _ h2, h3, h4⟩
        simp only [validateFieldsLoop, hl, hv]
        exact h1
      | error e =>
        refine ⟨k, e, ft, v, ?_, List.mem_cons_self _ _, hl, hv⟩
        simp only [validateFieldsLoop, hl, hv]

theorem checkUnknownLoop_eq_find (fields : List (String × FieldType)) :
    ∀ data : List (String × Value),
      checkUnknownLoop fields data =
        (match data.find? (fun p => (mapLookup fields p.1).isNone) with
         | some p => .error (.unknownField p.1)
         | none => .ok ()) := by
  intro data
  induction data with
  | nil => rfl
  | cons p rest ih =>
    obtain ⟨k, v⟩ := p
    simp only [checkUnknownLoop, List.find?]
    cases hl : mapLookup fields k with
    | none => simp [hl]
    | some ft => simp [hl, ih]

/-- C6 counterexample: when the data has both a kind-mismatched known
field and an unknown field, validation fails with the mismatch error,
NOT the unknown-field error — so "fails with an unknown-field error
whenever the value contains a field absent from the schema" is false:
schema `{a: int}` against `{a: "x", b: "y"}` yields the validation
error naming `a`. -/
theorem C6_counterexample :
    Schema.ValidateData schemaIntA [("a", .vStr "x"), ("b", .vStr "y")] =
      .error (.validationError "a" (.expectedType "integer" "string")) ∧
    Schema.ValidateData schemaIntA [("a", .vStr "x"), ("b", .vStr "y")] ≠
      .error (.unknownField "b") := by
  refine ⟨rfl, fun h => ?_⟩
  have h2 : (Except.error (MErr.validationError "a" (.expectedType "integer" "string")) :
      Except MErr Unit) = .error (.unknownField "b") := h
  injection h2 with h3
  exact MErr.noConfusion h3

/-- C6 amended: the kind-mismatch pass over schema-declared fields
runs first — if any data-present schema field fails its kind check,
validation fails with a ValidationError naming such a field, even when
unknown fields are also present; when every data-present schema field
conforms, validation fails with an UnknownFieldError naming the first
data field absent from the schema, if any; fields declared in the
schema but absent from the data cause no error. -/
theorem C6_amended :
    (∀ (s : Schema) (data : List (String × Value)),
      mismatchFreeB s data = true →
      Schema.ValidateData s data =
        (match data.find? (fun p => (mapLookup s.fields p.1).isNone) with
         | some p => .error (.unknownField p.1)
         | none => .ok ())) ∧
    (∀ (s : Schema) (data : List (String × Value)),
      mismatchFreeB s data = false →
      ∃ n e ft v, Schema.ValidateData s data = .error (.validationError n e) ∧
        (n, ft) ∈ s.fields ∧ mapLookup data n = some v ∧
        validateValue v ft = .error e) ∧
    (∀ (s : Schema) (data : List (String × Value)),
      mismatchFreeB s data = true →
      (∀ p ∈ data, (mapLookup s.fields p.1).isSome = true) →
      Schema.ValidateData s data = .ok ()) := by
  refine ⟨?_, ?_, ?_⟩
  · intro s data h
    simp only [Schema.ValidateData, validateFieldsLoop_ok data s.fields h]
    exact checkUnknownLoop_eq_find s.fields data
  · intro s data h
    obtain ⟨n, e, ft, v, h1, h2, h3, h4⟩ := validateFieldsLoop_error data s.fields h
    refine ⟨n, e, ft, v, ?_, h2, h3, h4⟩
    simp only [Schema.ValidateData, h1]
  · intro s data h hknown
    have hfind : data.find? (fun p => (mapLookup s.fields p.1).isNone) = none := by
      rw [List.find?_eq_none]
      intro x hx
      have hsome := hknown x hx
      cases h2 : mapLookup s.fields x.1 with
      | none => rw [h2] at hsome; exact Bool.noConfusion hsome
      | some ft => simp [h2]
    simp only [Schema.ValidateData, validateFieldsLoop_ok data s.fields h]
    rw [checkUnknownLoop_eq_find s.fields data, hfind]

/-- C6 witness: the amended statement instantiated — schema `{a: int}`
flags the lone unknown field `b`, returns the ValidationError
naming `a` on a kind mismatch, and accepts empty data (declared
fields are optional). -/
theorem C6_witness :
    Schema.ValidateData schemaIntA [("b", .vStr "y")] = .error (.unknownField "b") ∧
    (∃ n e ft v, Schema.ValidateData schemaIntA [("a", .vStr "x")] =
        .error (.validationError n e) ∧ (n, ft) ∈ schemaIntA.fields ∧
        mapLookup [("a", Value.vStr "x")] n = some v ∧
        validateValue v ft = .error e) ∧
    Schema.ValidateData schemaIntA [] = .ok () := by
  refine ⟨?_, ?_, ?_⟩
  · rw [C6_amended.1 schemaIntA [("b", .vStr "y")] rfl]
    rfl
  · exact C6_amended.2.1 schemaIntA [("a", .vStr "x")] rfl
  · exact C6_amended.2.2 schemaIntA [] rfl
      (fun p hp => absurd hp (List.not_mem_nil p))

end MetaDat
